import Mathlib

/-!
Shallow embedding of the raytracer math kernel (src/src/lib.rs) over the real
numbers.  The Rust source works on `f32`; here each `f32` is modelled as a
real number, `f32::sqrt` as `Real.sqrt`, `f32::tan` as `Real.tan`, and the
`assert!` statements in `Camera::screen_ray` are modelled by returning an
`Option Ray` that is `none` exactly when an assertion fires.  All definitions
mirror the source line by line; local `let` bindings of the source
(`tcenter`, `d`, `tdelta`, `point_at_screen`) are lifted to named
definitions so that theorems can speak about them.
-/

namespace Raytracer

/-- `struct Vector { x, y, z }` from the source, components as reals. -/
structure Vector where
  x : ℝ
  y : ℝ
  z : ℝ

/-- `Vector::almost_equal_with_epsilon`: independent per-component
absolute-difference checks. -/
def Vector.almost_equal_with_epsilon (a b : Vector) (epsilon : ℝ) : Prop :=
  |a.x - b.x| < epsilon ∧ |a.y - b.y| < epsilon ∧ |a.z - b.z| < epsilon

/-- `Vector::almost_equal`: `almost_equal_with_epsilon` with the fixed
default tolerance `0.0000001`. -/
def Vector.almost_equal (a b : Vector) : Prop :=
  a.almost_equal_with_epsilon b 0.0000001

/-- `Vector::zero()`. -/
def Vector.zero : Vector := ⟨0, 0, 0⟩

/-- `Vector::unitx()`. -/
def Vector.unitx : Vector := ⟨1, 0, 0⟩

/-- `Vector::unity()`. -/
def Vector.unity : Vector := ⟨0, 1, 0⟩

/-- `Vector::unitz()`. -/
def Vector.unitz : Vector := ⟨0, 0, 1⟩

/-- `Vector::dot`. -/
def Vector.dot (a b : Vector) : ℝ :=
  a.x * b.x + a.y * b.y + a.z * b.z

/-- `Vector::cross` (right-handed). -/
def Vector.cross (a b : Vector) : Vector :=
  ⟨a.y * b.z - a.z * b.y, a.z * b.x - a.x * b.z, a.x * b.y - a.y * b.x⟩

/-- `Vector::len`: Euclidean norm, `sqrt(x^2 + y^2 + z^2)`. -/
noncomputable def Vector.len (v : Vector) : ℝ :=
  Real.sqrt (v.x ^ 2 + v.y ^ 2 + v.z ^ 2)

/-- `Vector::normalized`: componentwise division by the length.  The source
performs no zero-length check before dividing. -/
noncomputable def Vector.normalized (v : Vector) : Vector :=
  ⟨v.x / v.len, v.y / v.len, v.z / v.len⟩

/-- `impl Add for Vector`. -/
def Vector.add (a b : Vector) : Vector :=
  ⟨a.x + b.x, a.y + b.y, a.z + b.z⟩

instance : Add Vector := ⟨Vector.add⟩

/-- `impl Mul<f32> for Vector`. -/
def Vector.mul (a : Vector) (s : ℝ) : Vector :=
  ⟨a.x * s, a.y * s, a.z * s⟩

instance : HMul Vector ℝ Vector := ⟨Vector.mul⟩

instance : HMul ℝ Vector Vector := ⟨fun s v => v * s⟩

/-- `impl Sub for Vector`: defined in the source as `self + -1.0 * other`. -/
def Vector.sub (a b : Vector) : Vector :=
  a + (-1 : ℝ) * b

instance : Sub Vector := ⟨Vector.sub⟩

/-- `impl Div<f32> for Vector`. -/
noncomputable def Vector.div (a : Vector) (s : ℝ) : Vector :=
  ⟨a.x / s, a.y / s, a.z / s⟩

noncomputable instance : HDiv Vector ℝ Vector := ⟨Vector.div⟩

/-- `impl Neg for Vector`. -/
def Vector.neg (a : Vector) : Vector :=
  ⟨-a.x, -a.y, -a.z⟩

instance : Neg Vector := ⟨Vector.neg⟩

/-- `struct Ray { pos, dir }`. -/
structure Ray where
  pos : Vector
  dir : Vector

/-- `Ray::forwarded`: translate the origin along the direction, direction
unchanged. -/
def Ray.forwarded (r : Ray) (distance : ℝ) : Ray :=
  { pos := r.pos + r.dir * distance, dir := r.dir }

/-- `Ray::almost_equal`. -/
def Ray.almost_equal (a b : Ray) : Prop :=
  a.pos.almost_equal b.pos ∧ a.dir.almost_equal b.dir

/-- `struct Sphere { center, radius }`. -/
structure Sphere where
  center : Vector
  radius : ℝ

/-- `enum Intersection { None, Hit(Vector) }`. -/
inductive Intersection where
  | None : Intersection
  | Hit : Vector → Intersection

/-- The local `tcenter` of `Sphere::intersect_ray`:
`pos_to_center.dot(&ray.dir)`. -/
def Sphere.tcenter (s : Sphere) (ray : Ray) : ℝ :=
  (s.center - ray.pos).dot ray.dir

/-- The local `d` of `Sphere::intersect_ray`:
`(pos_to_center.len().powf(2.0) - tcenter.powf(2.0)).sqrt()`. -/
noncomputable def Sphere.d (s : Sphere) (ray : Ray) : ℝ :=
  Real.sqrt ((s.center - ray.pos).len ^ 2 - s.tcenter ray ^ 2)

/-- The local `tdelta` of `Sphere::intersect_ray`:
`(self.radius.powf(2.0) - d.powf(2.0)).sqrt()`. -/
noncomputable def Sphere.tdelta (s : Sphere) (ray : Ray) : ℝ :=
  Real.sqrt (s.radius ^ 2 - s.d ray ^ 2)

/-- `Sphere::intersect_ray`, with the same guard structure as the source:
inside-or-on-surface origins yield `None`, a negative `tcenter` yields
`None`, `d > radius` yields `None`, otherwise the hit point is
`ray.forwarded(tcenter - tdelta).pos`. -/
noncomputable def Sphere.intersect_ray (s : Sphere) (ray : Ray) : Intersection :=
  if (s.center - ray.pos).len ≤ s.radius then Intersection.None
  else if s.tcenter ray < 0 then Intersection.None
  else if s.d ray > s.radius then Intersection.None
  else Intersection.Hit (ray.forwarded (s.tcenter ray - s.tdelta ray)).pos

/-- `Intersection::almost_equal`: `None` matches only `None`; `Hit` matches
`Hit` by `Vector::almost_equal`. -/
def Intersection.almost_equal : Intersection → Intersection → Prop
  | Intersection.None, Intersection.None => True
  | Intersection.None, Intersection.Hit _ => False
  | Intersection.Hit v1, Intersection.Hit v2 => v1.almost_equal v2
  | Intersection.Hit _, Intersection.None => False

/-- Free-standing `almost_equal_with_epsilon(a, b, epsilon)`. -/
def almost_equal_with_epsilon (a b epsilon : ℝ) : Prop :=
  |a - b| < epsilon

/-- Free-standing `almost_equal(a, b)` with the default tolerance. -/
def almost_equal (a b : ℝ) : Prop :=
  almost_equal_with_epsilon a b 0.0000001

/-- `struct Radians(pub f32)`. -/
structure Radians where
  val : ℝ

/-- `struct Camera`.  The comments in the source require `forward` and `up`
to be normalized; that is a caller obligation, not enforced here. -/
structure Camera where
  position : Vector
  forward : Vector
  up : Vector
  aspectRatio : ℝ
  fovx : Radians

/-- `posunit_to_unit`: convert a value in `[0, 1]` to a value in `[-1, 1]`. -/
def posunit_to_unit (value : ℝ) : ℝ :=
  value * 2 - 1

/-- The local `point_at_screen` of `Camera::screen_ray`, with the source's
local bindings inlined: `right = forward.cross(up)`,
`xunit = posunit_to_unit x`, `yunit = -posunit_to_unit y`,
`screen_width = 2 * tan(fovx/2)`, `screen_height = screen_width / aspect_ratio`,
and the point is
`position + forward + right*xunit*screen_width/2 + up*yunit*screen_height/2`. -/
noncomputable def Camera.point_at_screen (c : Camera) (x y : ℝ) : Vector :=
  c.position + c.forward
    + (c.forward.cross c.up) * posunit_to_unit x * (2 * Real.tan (c.fovx.val / 2)) / (2 : ℝ)
    + c.up * (-posunit_to_unit y) * (2 * Real.tan (c.fovx.val / 2) / c.aspectRatio) / (2 : ℝ)

/-- `Camera::screen_ray`.  The two `assert!` statements of the source are
modelled as `Option`: the result is `none` exactly when
`0.0 <= x && x <= 1.0` or `0.0 <= y && y <= 1.0` fails. -/
noncomputable def Camera.screen_ray (c : Camera) (x y : ℝ) : Option Ray :=
  if 0 ≤ x ∧ x ≤ 1 then
    if 0 ≤ y ∧ y ≤ 1 then
      some { pos := c.position, dir := ((c.point_at_screen x y) - c.position).normalized }
    else Option.none
  else Option.none

/-- Modelled from the spec: the spec describes `normalized` as failing on a
zero-length vector ("fails/undefined when length is 0", "fail loudly
(assertion/panic)").  This spec-side variant returns `none` on a zero-length
input; the source's `Vector::normalized` above has no such check.  Used only
to exhibit the divergence for the corresponding claim. -/
noncomputable def specNormalized (v : Vector) : Option Vector :=
  if v.len = 0 then Option.none else some v.normalized

/-! ## Basic lemmas about the embedding -/

lemma Vector.add_comp (a b : Vector) :
    a + b = ⟨a.x + b.x, a.y + b.y, a.z + b.z⟩ := rfl

lemma Vector.mul_comp (a : Vector) (s : ℝ) :
    a * s = ⟨a.x * s, a.y * s, a.z * s⟩ := rfl

lemma Vector.div_comp (a : Vector) (s : ℝ) :
    a / s = ⟨a.x / s, a.y / s, a.z / s⟩ := rfl

lemma sqrt_eval (a b : ℝ) (hb : 0 ≤ b) (h : a = b ^ 2) : Real.sqrt a = b := by
  rw [h]; exact Real.sqrt_sq hb

lemma Vector.len_nonneg (v : Vector) : 0 ≤ v.len :=
  Real.sqrt_nonneg _

lemma Vector.len_sq (v : Vector) : v.len ^ 2 = v.x ^ 2 + v.y ^ 2 + v.z ^ 2 :=
  Real.sq_sqrt (by positivity)

lemma Vector.sub_comp (a b : Vector) :
    a - b = ⟨a.x - b.x, a.y - b.y, a.z - b.z⟩ := by
  show Vector.add a (Vector.mul b (-1)) = _
  simp only [Vector.add, Vector.mul, Vector.mk.injEq]
  refine ⟨by ring, by ring, by ring⟩

/-- Cauchy-Schwarz for the componentwise dot product, via the Lagrange
identity. -/
lemma Vector.dot_sq_le (a b : Vector) :
    (a.dot b) ^ 2 ≤ (a.x ^ 2 + a.y ^ 2 + a.z ^ 2) * (b.x ^ 2 + b.y ^ 2 + b.z ^ 2) := by
  simp only [Vector.dot]
  nlinarith [sq_nonneg (a.x * b.y - a.y * b.x), sq_nonneg (a.y * b.z - a.z * b.y),
    sq_nonneg (a.z * b.x - a.x * b.z)]

lemma Vector.comps_zero_of_len_zero (v : Vector) (h : v.len = 0) :
    v.x = 0 ∧ v.y = 0 ∧ v.z = 0 := by
  have hs : v.x ^ 2 + v.y ^ 2 + v.z ^ 2 = 0 := by
    have := (Real.sqrt_eq_zero (by positivity)).mp h
    exact this
  refine ⟨?_, ?_, ?_⟩ <;> nlinarith [sq_nonneg v.x, sq_nonneg v.y, sq_nonneg v.z]

lemma Vector.normalized_len (v : Vector) (h : v.len ≠ 0) :
    v.normalized.len = 1 := by
  have hpos : 0 < v.len := lt_of_le_of_ne v.len_nonneg (Ne.symm h)
  have hs : v.x ^ 2 + v.y ^ 2 + v.z ^ 2 = v.len ^ 2 := (Vector.len_sq v).symm
  show Real.sqrt ((v.x / v.len) ^ 2 + (v.y / v.len) ^ 2 + (v.z / v.len) ^ 2) = 1
  have : (v.x / v.len) ^ 2 + (v.y / v.len) ^ 2 + (v.z / v.len) ^ 2 = 1 := by
    field_simp
    linarith [hs]
  rw [this, Real.sqrt_one]

/-- The screen point seen from the camera projects to exactly `1` on the
forward axis: the screen plane sits one unit in front of the camera, and
both offset terms are orthogonal to `forward`. -/
lemma Camera.point_sub_dot_forward (c : Camera) (x y : ℝ)
    (hf : c.forward.len = 1) (hfu : c.forward.dot c.up = 0) :
    ((c.point_at_screen x y) - c.position).dot c.forward = 1 := by
  have hf2 : c.forward.x ^ 2 + c.forward.y ^ 2 + c.forward.z ^ 2 = 1 := by
    have h := Vector.len_sq c.forward
    rw [hf, one_pow] at h
    exact h.symm
  unfold Vector.dot at hfu
  unfold Camera.point_at_screen
  rw [Vector.sub_comp]
  simp only [Vector.add_comp, Vector.mul_comp, Vector.div_comp, Vector.cross]
  unfold Vector.dot
  simp only
  linear_combination hf2
    + ((-posunit_to_unit y) * (2 * Real.tan (c.fovx.val / 2) / c.aspectRatio) / 2) * hfu

/-- The vector from the camera to the screen point has non-zero length,
since its dot product with `forward` is `1`. -/
lemma Camera.point_sub_len_ne_zero (c : Camera) (x y : ℝ)
    (hf : c.forward.len = 1) (hfu : c.forward.dot c.up = 0) :
    ((c.point_at_screen x y) - c.position).len ≠ 0 := by
  intro h0
  have hcomp := Vector.comps_zero_of_len_zero _ h0
  have hdot := Camera.point_sub_dot_forward c x y hf hfu
  unfold Vector.dot at hdot
  rw [hcomp.1, hcomp.2.1, hcomp.2.2] at hdot
  norm_num at hdot

/-! ## Claim theorems -/

/-- Claim C2: for every sphere and ray whose origin is inside or exactly on
the sphere surface (`length(center - pos) <= radius`), `intersect_ray`
returns `None` regardless of the direction. -/
theorem intersect_ray_inside_none (s : Sphere) (ray : Ray)
    (h : (s.center - ray.pos).len ≤ s.radius) :
    s.intersect_ray ray = Intersection.None := by
  unfold Sphere.intersect_ray
  rw [if_pos h]

/-- Witness for C2: a ray starting at the center `(0,0,5)` of the unit
sphere centered there yields `None`. -/
theorem intersect_ray_inside_none_witness :
    ((⟨⟨0, 0, 5⟩, 1⟩ : Sphere).center - (⟨⟨0, 0, 5⟩, ⟨0, 0, 1⟩⟩ : Ray).pos).len
        ≤ (⟨⟨0, 0, 5⟩, 1⟩ : Sphere).radius ∧
    Sphere.intersect_ray ⟨⟨0, 0, 5⟩, 1⟩ ⟨⟨0, 0, 5⟩, ⟨0, 0, 1⟩⟩ = Intersection.None := by
  have h : ((⟨⟨0, 0, 5⟩, 1⟩ : Sphere).center - (⟨⟨0, 0, 5⟩, ⟨0, 0, 1⟩⟩ : Ray).pos).len
      ≤ (⟨⟨0, 0, 5⟩, 1⟩ : Sphere).radius := by
    rw [Vector.sub_comp]
    unfold Vector.len
    rw [sqrt_eval _ 0 le_rfl (by norm_num)]
    norm_num
  exact ⟨h, intersect_ray_inside_none _ _ h⟩

/-- Claim C1: for a ray origin strictly outside the sphere, `intersect_ray`
returns `None` when `tcenter < 0`, returns `None` when `d > radius`, and
otherwise returns `Hit(pos + dir * (tcenter - tdelta))`, the nearer
candidate intersection point. -/
theorem intersect_ray_outside_cases (s : Sphere) (ray : Ray)
    (h : s.radius < (s.center - ray.pos).len) :
    (s.tcenter ray < 0 → s.intersect_ray ray = Intersection.None) ∧
    (0 ≤ s.tcenter ray → s.radius < s.d ray → s.intersect_ray ray = Intersection.None) ∧
    (0 ≤ s.tcenter ray → s.d ray ≤ s.radius →
      s.intersect_ray ray
        = Intersection.Hit (ray.pos + ray.dir * (s.tcenter ray - s.tdelta ray))) := by
  have h1 : ¬ ((s.center - ray.pos).len ≤ s.radius) := not_le.mpr h
  refine ⟨?_, ?_, ?_⟩
  · intro ht
    unfold Sphere.intersect_ray
    rw [if_neg h1, if_pos ht]
  · intro ht hd
    unfold Sphere.intersect_ray
    rw [if_neg h1, if_neg (not_lt.mpr ht), if_pos hd]
  · intro ht hd
    unfold Sphere.intersect_ray
    rw [if_neg h1, if_neg (not_lt.mpr ht), if_neg (not_lt.mpr hd)]
    rfl

/-- Witness for C1: the unit sphere at `(0,0,5)` hit by the ray from the
origin along `+z` produces `Hit (0,0,4)` through the third case. -/
theorem intersect_ray_outside_cases_witness :
    (⟨⟨0, 0, 5⟩, 1⟩ : Sphere).radius
        < ((⟨⟨0, 0, 5⟩, 1⟩ : Sphere).center - (⟨⟨0, 0, 0⟩, ⟨0, 0, 1⟩⟩ : Ray).pos).len ∧
    Sphere.intersect_ray ⟨⟨0, 0, 5⟩, 1⟩ ⟨⟨0, 0, 0⟩, ⟨0, 0, 1⟩⟩
        = Intersection.Hit ⟨0, 0, 4⟩ := by
  have hsub : ((⟨⟨0, 0, 5⟩, 1⟩ : Sphere).center - (⟨⟨0, 0, 0⟩, ⟨0, 0, 1⟩⟩ : Ray).pos)
      = (⟨0, 0, 5⟩ : Vector) := by
    rw [Vector.sub_comp]
    norm_num
  have hlen : (⟨0, 0, 5⟩ : Vector).len = 5 := by
    unfold Vector.len
    exact sqrt_eval _ 5 (by norm_num) (by norm_num)
  have h : (⟨⟨0, 0, 5⟩, 1⟩ : Sphere).radius
      < ((⟨⟨0, 0, 5⟩, 1⟩ : Sphere).center - (⟨⟨0, 0, 0⟩, ⟨0, 0, 1⟩⟩ : Ray).pos).len := by
    rw [hsub, hlen]; norm_num
  have htc : Sphere.tcenter ⟨⟨0, 0, 5⟩, 1⟩ ⟨⟨0, 0, 0⟩, ⟨0, 0, 1⟩⟩ = 5 := by
    unfold Sphere.tcenter
    rw [hsub]
    unfold Vector.dot
    norm_num
  have hd : Sphere.d ⟨⟨0, 0, 5⟩, 1⟩ ⟨⟨0, 0, 0⟩, ⟨0, 0, 1⟩⟩ = 0 := by
    unfold Sphere.d
    rw [hsub, hlen, htc]
    exact sqrt_eval _ 0 le_rfl (by norm_num)
  have htd : Sphere.tdelta ⟨⟨0, 0, 5⟩, 1⟩ ⟨⟨0, 0, 0⟩, ⟨0, 0, 1⟩⟩ = 1 := by
    unfold Sphere.tdelta
    rw [hd]
    exact sqrt_eval _ 1 (by norm_num) (by norm_num)
  have hres := (intersect_ray_outside_cases _ _ h).2.2 (by rw [htc]; norm_num)
    (by rw [hd]; norm_num)
  rw [htc, htd] at hres
  refine ⟨h, ?_⟩
  rw [hres, Vector.mul_comp, Vector.add_comp]
  norm_num

/-- Claim C4: under the guards of `intersect_ray` (origin strictly outside,
`tcenter >= 0`, and for the second root additionally `d <= radius`), both
square roots receive non-negative arguments, for any unit-length ray
direction. -/
theorem intersect_ray_sqrt_args_nonneg (s : Sphere) (ray : Ray)
    (hdir : ray.dir.len = 1) (hout : s.radius < (s.center - ray.pos).len) :
    (0 ≤ s.tcenter ray → 0 ≤ (s.center - ray.pos).len ^ 2 - s.tcenter ray ^ 2) ∧
    (0 ≤ s.tcenter ray → s.d ray ≤ s.radius → 0 ≤ s.radius ^ 2 - s.d ray ^ 2) := by
  constructor
  · intro _
    have hcs := Vector.dot_sq_le (s.center - ray.pos) ray.dir
    have h1 : ray.dir.x ^ 2 + ray.dir.y ^ 2 + ray.dir.z ^ 2 = 1 := by
      have h := Vector.len_sq ray.dir
      rw [hdir, one_pow] at h
      exact h.symm
    have h2 := Vector.len_sq (s.center - ray.pos)
    unfold Sphere.tcenter
    nlinarith [hcs, h1, h2]
  · intro _ hd
    have hd0 : 0 ≤ s.d ray := Real.sqrt_nonneg _
    nlinarith [hd, hd0]

/-- Witness for C4: with the unit sphere at `(0,0,5)` and the unit ray from
the origin along `+z`, the first square-root argument is non-negative. -/
theorem intersect_ray_sqrt_args_nonneg_witness :
    0 ≤ Sphere.tcenter ⟨⟨0, 0, 5⟩, 1⟩ ⟨⟨0, 0, 0⟩, ⟨0, 0, 1⟩⟩ ∧
    0 ≤ ((⟨⟨0, 0, 5⟩, 1⟩ : Sphere).center - (⟨⟨0, 0, 0⟩, ⟨0, 0, 1⟩⟩ : Ray).pos).len ^ 2
        - Sphere.tcenter ⟨⟨0, 0, 5⟩, 1⟩ ⟨⟨0, 0, 0⟩, ⟨0, 0, 1⟩⟩ ^ 2 := by
  have hsub : ((⟨⟨0, 0, 5⟩, 1⟩ : Sphere).center - (⟨⟨0, 0, 0⟩, ⟨0, 0, 1⟩⟩ : Ray).pos)
      = (⟨0, 0, 5⟩ : Vector) := by
    rw [Vector.sub_comp]
    norm_num
  have hdir : (⟨⟨0, 0, 0⟩, ⟨0, 0, 1⟩⟩ : Ray).dir.len = 1 := by
    unfold Vector.len
    exact sqrt_eval _ 1 (by norm_num) (by norm_num)
  have hout : (⟨⟨0, 0, 5⟩, 1⟩ : Sphere).radius
      < ((⟨⟨0, 0, 5⟩, 1⟩ : Sphere).center - (⟨⟨0, 0, 0⟩, ⟨0, 0, 1⟩⟩ : Ray).pos).len := by
    rw [hsub]
    unfold Vector.len
    rw [sqrt_eval _ 5 (by norm_num) (by norm_num)]
    norm_num
  have htc : 0 ≤ Sphere.tcenter ⟨⟨0, 0, 5⟩, 1⟩ ⟨⟨0, 0, 0⟩, ⟨0, 0, 1⟩⟩ := by
    unfold Sphere.tcenter
    rw [hsub]
    unfold Vector.dot
    norm_num
  exact ⟨htc, (intersect_ray_sqrt_args_nonneg _ _ hdir hout).1 htc⟩

/-- Claim C8: `almost_equal` with the default epsilon is reflexive: every
vector is almost-equal to itself. -/
theorem vector_almost_equal_refl (v : Vector) : v.almost_equal v := by
  unfold Vector.almost_equal Vector.almost_equal_with_epsilon
  norm_num

/-- Claim C10: `Intersection.almost_equal` compares by variant: `None`
matches only `None`, `Hit p` matches `Hit q` exactly when
`p.almost_equal q`, and a `None` and a `Hit` never match. -/
theorem intersection_almost_equal_cases :
    (Intersection.None.almost_equal Intersection.None) ∧
    (∀ p q : Vector,
      ((Intersection.Hit p).almost_equal (Intersection.Hit q) ↔ p.almost_equal q)) ∧
    (∀ p : Vector, ¬ (Intersection.None.almost_equal (Intersection.Hit p)) ∧
      ¬ ((Intersection.Hit p).almost_equal Intersection.None)) :=
  ⟨trivial, fun _ _ => Iff.rfl, fun _ => ⟨fun h => h, fun h => h⟩⟩

/-- Claim C3: `screen_ray` fails its precondition check (modelled as
returning `none`) exactly when `x` or `y` lies outside the inclusive
interval `[0, 1]`; inside the interval both assertions pass and the ray is
returned. -/
theorem screen_ray_precondition (c : Camera) (x y : ℝ) :
    (c.screen_ray x y = Option.none ↔ x < 0 ∨ 1 < x ∨ y < 0 ∨ 1 < y) ∧
    (0 ≤ x ∧ x ≤ 1 → 0 ≤ y ∧ y ≤ 1 →
      c.screen_ray x y
        = some { pos := c.position,
                 dir := ((c.point_at_screen x y) - c.position).normalized }) := by
  constructor
  · unfold Camera.screen_ray
    split_ifs with h1 h2
    · constructor
      · intro h
        exact h.elim
      · intro h
        exfalso
        rcases h with h | h | h | h
        · exact absurd h1.1 (not_le.mpr h)
        · exact absurd h1.2 (not_le.mpr h)
        · exact absurd h2.1 (not_le.mpr h)
        · exact absurd h2.2 (not_le.mpr h)
    · constructor
      · intro _
        rcases not_and_or.mp h2 with h | h
        · exact Or.inr (Or.inr (Or.inl (not_le.mp h)))
        · exact Or.inr (Or.inr (Or.inr (not_le.mp h)))
      · intro _
        rfl
    · constructor
      · intro _
        rcases not_and_or.mp h1 with h | h
        · exact Or.inl (not_le.mp h)
        · exact Or.inr (Or.inl (not_le.mp h))
      · intro _
        rfl
  · intro hx hy
    unfold Camera.screen_ray
    rw [if_pos hx, if_pos hy]

/-- Witness for C3: at the screen center the assertions pass and a ray is
returned, and at `x = 2` the precondition fails. -/
theorem screen_ray_precondition_witness :
    Camera.screen_ray ⟨⟨0, 0, 0⟩, ⟨0, 0, 1⟩, ⟨0, 1, 0⟩, 1, ⟨Real.pi / 2⟩⟩ 0.5 0.5
        ≠ Option.none ∧
    Camera.screen_ray ⟨⟨0, 0, 0⟩, ⟨0, 0, 1⟩, ⟨0, 1, 0⟩, 1, ⟨Real.pi / 2⟩⟩ 2 0.5
        = Option.none := by
  constructor
  · have h := (screen_ray_precondition
      ⟨⟨0, 0, 0⟩, ⟨0, 0, 1⟩, ⟨0, 1, 0⟩, 1, ⟨Real.pi / 2⟩⟩ 0.5 0.5).2
      (by norm_num) (by norm_num)
    rw [h]
    exact Option.some_ne_none _
  · exact (screen_ray_precondition
      ⟨⟨0, 0, 0⟩, ⟨0, 0, 1⟩, ⟨0, 1, 0⟩, 1, ⟨Real.pi / 2⟩⟩ 2 0.5).1.mpr
      (Or.inr (Or.inl (by norm_num)))

/-- Claim C5 (counterexample): the source's `normalized` returns a value on
the zero vector — it performs no zero-length check, so in Rust the division
`0.0 / 0.0` quietly yields NaN components and no assertion or panic occurs
(in the real-number model division by zero yields `0`).  The spec-modelled
variant, which does fail on zero length, disagrees with the source here. -/
theorem normalized_zero_no_panic :
    Vector.normalized Vector.zero = Vector.zero ∧
    specNormalized Vector.zero = Option.none := by
  have h : Vector.zero.len = 0 := by
    unfold Vector.len Vector.zero
    exact sqrt_eval _ 0 le_rfl (by norm_num)
  constructor
  · unfold Vector.normalized
    rw [h]
    unfold Vector.zero
    norm_num
  · unfold specNormalized
    rw [if_pos h]

/-- Claim C5 (amended): `normalized` performs no zero-length guard — on any
zero-length vector it simply divides each component by the zero length and
returns the result (NaN components in IEEE `f32`; no assertion or panic). -/
theorem normalized_zero_divides (v : Vector) (h : v.len = 0) :
    v.normalized = Vector.mk (v.x / 0) (v.y / 0) (v.z / 0) := by
  unfold Vector.normalized
  rw [h]

/-- Witness for the amended C5: the zero vector has zero length and
`normalized` returns the componentwise `0 / 0` vector on it. -/
theorem normalized_zero_divides_witness :
    Vector.zero.len = 0 ∧
    Vector.zero.normalized = Vector.mk (0 / 0) (0 / 0) (0 / 0) := by
  have h : Vector.zero.len = 0 := by
    unfold Vector.len Vector.zero
    exact sqrt_eval _ 0 le_rfl (by norm_num)
  exact ⟨h, normalized_zero_divides Vector.zero h⟩

/-- Claim C9: for a camera with unit forward, unit up orthogonal to
forward, and screen coordinates in `[0, 1]`, the vector
`point_at_screen - position` has dot product `1` with `forward`, hence is
non-zero: the final normalization in `screen_ray` never divides by a zero
length. -/
theorem screen_ray_no_zero_normalization (c : Camera) (x y : ℝ)
    (hf : c.forward.len = 1) (hu : c.up.len = 1) (hfu : c.forward.dot c.up = 0)
    (hx : 0 ≤ x ∧ x ≤ 1) (hy : 0 ≤ y ∧ y ≤ 1) :
    ((c.point_at_screen x y) - c.position).dot c.forward = 1 ∧
    ((c.point_at_screen x y) - c.position).len ≠ 0 :=
  ⟨Camera.point_sub_dot_forward c x y hf hfu,
   Camera.point_sub_len_ne_zero c x y hf hfu⟩

/-- Witness for C9 at a concrete camera and the screen center. -/
theorem screen_ray_no_zero_normalization_witness :
    ((Camera.point_at_screen ⟨⟨0, 0, 0⟩, ⟨0, 0, 1⟩, ⟨0, 1, 0⟩, 1, ⟨Real.pi / 2⟩⟩ 0.5 0.5)
        - (⟨0, 0, 0⟩ : Vector)).len ≠ 0 := by
  have hf : (⟨0, 0, 1⟩ : Vector).len = 1 := by
    unfold Vector.len
    exact sqrt_eval _ 1 (by norm_num) (by norm_num)
  have hu : (⟨0, 1, 0⟩ : Vector).len = 1 := by
    unfold Vector.len
    exact sqrt_eval _ 1 (by norm_num) (by norm_num)
  have hfu : (⟨0, 0, 1⟩ : Vector).dot ⟨0, 1, 0⟩ = 0 := by
    unfold Vector.dot
    norm_num
  exact (screen_ray_no_zero_normalization
    ⟨⟨0, 0, 0⟩, ⟨0, 0, 1⟩, ⟨0, 1, 0⟩, 1, ⟨Real.pi / 2⟩⟩ 0.5 0.5
    hf hu hfu (by norm_num) (by norm_num)).2

/-- Claim C6: for a camera with unit forward, unit up orthogonal to
forward, positive aspect ratio and `0 < fovx < pi`, and screen coordinates
in `[0, 1]`, `screen_ray` returns a ray whose origin is the camera position
and whose direction length is almost-equal to `1`. -/
theorem screen_ray_unit_dir (c : Camera) (x y : ℝ)
    (hf : c.forward.len = 1) (hu : c.up.len = 1) (hfu : c.forward.dot c.up = 0)
    (ha : 0 < c.aspectRatio) (hfov : 0 < c.fovx.val ∧ c.fovx.val < Real.pi)
    (hx : 0 ≤ x ∧ x ≤ 1) (hy : 0 ≤ y ∧ y ≤ 1) :
    ∃ r : Ray, c.screen_ray x y = some r ∧ r.pos = c.position ∧
      almost_equal r.dir.len 1 := by
  have heq : c.screen_ray x y
      = some { pos := c.position,
               dir := ((c.point_at_screen x y) - c.position).normalized } := by
    unfold Camera.screen_ray
    rw [if_pos hx, if_pos hy]
  refine ⟨_, heq, rfl, ?_⟩
  have hne := Camera.point_sub_len_ne_zero c x y hf hfu
  have hlen := Vector.normalized_len _ hne
  unfold almost_equal almost_equal_with_epsilon
  rw [hlen]
  norm_num

/-- Witness for C6 at a concrete camera and the screen center. -/
theorem screen_ray_unit_dir_witness :
    ∃ r : Ray,
      Camera.screen_ray ⟨⟨0, 0, 0⟩, ⟨0, 0, 1⟩, ⟨0, 1, 0⟩, 1, ⟨Real.pi / 2⟩⟩ 0.5 0.5
          = some r ∧
      r.pos = (⟨0, 0, 0⟩ : Vector) ∧ almost_equal r.dir.len 1 := by
  have hf : (⟨0, 0, 1⟩ : Vector).len = 1 := by
    unfold Vector.len
    exact sqrt_eval _ 1 (by norm_num) (by norm_num)
  have hu : (⟨0, 1, 0⟩ : Vector).len = 1 := by
    unfold Vector.len
    exact sqrt_eval _ 1 (by norm_num) (by norm_num)
  have hfu : (⟨0, 0, 1⟩ : Vector).dot ⟨0, 1, 0⟩ = 0 := by
    unfold Vector.dot
    norm_num
  exact screen_ray_unit_dir
    ⟨⟨0, 0, 0⟩, ⟨0, 0, 1⟩, ⟨0, 1, 0⟩, 1, ⟨Real.pi / 2⟩⟩ 0.5 0.5
    hf hu hfu (by norm_num)
    ⟨by positivity, by linarith [Real.pi_pos]⟩ (by norm_num) (by norm_num)

/-- Claim C7: for the camera at the origin with `forward = (0,0,1)`,
`up = (0,1,0)`, aspect ratio `1` and `fovx = pi/2`, `screen_ray(0.5, 0.5)`
returns a ray whose direction is almost-equal to `(0,0,1)`: the screen
center maps onto the forward axis. -/
theorem screen_ray_center_forward :
    ∃ r : Ray,
      Camera.screen_ray ⟨⟨0, 0, 0⟩, ⟨0, 0, 1⟩, ⟨0, 1, 0⟩, 1, ⟨Real.pi / 2⟩⟩ 0.5 0.5
          = some r ∧
      r.dir.almost_equal ⟨0, 0, 1⟩ := by
  have hpoint : Camera.point_at_screen
      ⟨⟨0, 0, 0⟩, ⟨0, 0, 1⟩, ⟨0, 1, 0⟩, 1, ⟨Real.pi / 2⟩⟩ 0.5 0.5
      = (⟨0, 0, 1⟩ : Vector) := by
    unfold Camera.point_at_screen
    simp only [Vector.cross, Vector.add_comp, Vector.mul_comp, Vector.div_comp,
      posunit_to_unit]
    norm_num
  have hsub : ((⟨0, 0, 1⟩ : Vector) - ⟨0, 0, 0⟩) = (⟨0, 0, 1⟩ : Vector) := by
    rw [Vector.sub_comp]
    norm_num
  have hlen : (⟨0, 0, 1⟩ : Vector).len = 1 := by
    unfold Vector.len
    exact sqrt_eval _ 1 (by norm_num) (by norm_num)
  have hnorm : (⟨0, 0, 1⟩ : Vector).normalized = (⟨0, 0, 1⟩ : Vector) := by
    unfold Vector.normalized
    rw [hlen]
    norm_num
  have heq : Camera.screen_ray ⟨⟨0, 0, 0⟩, ⟨0, 0, 1⟩, ⟨0, 1, 0⟩, 1, ⟨Real.pi / 2⟩⟩ 0.5 0.5
      = some { pos := (⟨0, 0, 0⟩ : Vector), dir := (⟨0, 0, 1⟩ : Vector) } := by
    unfold Camera.screen_ray
    rw [if_pos (by norm_num), if_pos (by norm_num)]
    rw [show (⟨⟨0, 0, 0⟩, ⟨0, 0, 1⟩, ⟨0, 1, 0⟩, 1, ⟨Real.pi / 2⟩⟩ : Camera).position
        = (⟨0, 0, 0⟩ : Vector) from rfl, hpoint, hsub, hnorm]
  refine ⟨_, heq, ?_⟩
  unfold Vector.almost_equal Vector.almost_equal_with_epsilon
  norm_num

end Raytracer
